import Mathlib

/-!
Verification of the jungle-db transactional engine against its natural-language
specification.  The JavaScript sources are shallowly embedded: pure methods become
Lean functions, stateful methods become explicit state passing, JavaScript
exceptions become Except values, and the single-threaded cooperative scheduling
of the engine is modelled by sequential event traces.  Opaque keys (primary keys,
table names, attribute names, callback identities) are modelled as natural
numbers; JavaScript values are modelled by the JsValue tree.
-/

/-- Errors surfaced by the embedded code (JavaScript throw / Promise rejection). -/
inductive DbError where
  | uniquenessViolation
  | typeErrorNotAFunction
  | cannotCreateWhileConnected
  | cannotDeleteWhileConnected
deriving DecidableEq, Repr

/-- Transaction states, from Transaction.STATE in the generic transaction layer. -/
inductive TxState where
  | open_
  | committed
  | aborted
  | conflicted
  | nested
  | flushed
deriving DecidableEq, Repr

/- ### Synchronizer (src/main/generic/utils/Synchronizer.js) -/

/- ======================= PART 1 : DEFINITIONS ======================= -/

/-- A job pushed to the Synchronizer: an identifier for the submitted zero-argument
function together with the outcome its invocation produces (a return value or a
thrown error). -/
structure SyncJob where
  id : Nat
  run : Except Nat Nat
deriving Repr

/-- Observable scheduling events of the Synchronizer worker: a job starts
executing, or a job finishes (its promise is settled). -/
inductive SyncEvent where
  | start (id : Nat)
  | finish (id : Nat)
deriving DecidableEq, Repr

namespace Synchronizer

/-- Embedding of Synchronizer.push: the job is appended to the FIFO queue. -/
def push (queue : List SyncJob) (job : SyncJob) : List SyncJob :=
  queue ++ [job]

/-- Embedding of Synchronizer.prototype._doWork: the worker shifts jobs off the
queue one at a time; each job is awaited to completion before the next one is
taken, and its result (or thrown error) is delivered to the submitter.  The
first component is the scheduling trace, the second the list of settled
promises, pairing each job id with the outcome of its own function. -/
def doWork : List SyncJob → List SyncEvent × List (Nat × Except Nat Nat)
  | [] => ([], [])
  | job :: rest =>
    let r := doWork rest
    (SyncEvent.start job.id :: SyncEvent.finish job.id :: r.1,
     (job.id, job.run) :: r.2)

end Synchronizer

/-- A reference to an ObjectStore as seen by CombinedTransaction.isConsistent:
object identity plus its jungleDB property (none models the null jungleDB of a
volatile in-memory store). -/
structure ObjectStoreRef where
  id : Nat
  jungleDB : Option Nat
deriving DecidableEq, Repr

/-- The view CombinedTransaction takes of a member transaction: its state, its
nested flag, and the object store it belongs to. -/
structure CTx where
  state : TxState
  nested : Bool
  objectStore : ObjectStoreRef
deriving DecidableEq, Repr

namespace CombinedTransaction

/-- Embedding of the loop body of CombinedTransaction.isConsistent: walks the
transactions accumulating the set of object stores seen so far and the current
value of the jdb field (initially null, set to the first jungleDB encountered,
where null jungleDBs never overwrite and never conflict). -/
def isConsistentLoop : List CTx → List ObjectStoreRef → Option Nat → Bool
  | [], _, _ => true
  | tx :: rest, objectStores, jdb =>
    if tx.state ≠ TxState.open_ then false
    else if tx.nested then false
    else if objectStores.contains tx.objectStore then false
    else
      match jdb with
      | none => isConsistentLoop rest (tx.objectStore :: objectStores) tx.objectStore.jungleDB
      | some j =>
        if tx.objectStore.jungleDB ≠ some j ∧ tx.objectStore.jungleDB ≠ none then false
        else isConsistentLoop rest (tx.objectStore :: objectStores) (some j)

/-- Embedding of CombinedTransaction.isConsistent, called from the constructor;
the constructor throws an Error exactly when this returns false. -/
def isConsistent (txs : List CTx) : Bool :=
  isConsistentLoop txs [] none

/-- The validity preconditions as the specification words them: all inputs open,
none nested, pairwise distinct object stores, and all non-null jungleDB values
equal (a volatile store, whose jungleDB is null, belongs to any instance). -/
def specConsistent (txs : List CTx) : Prop :=
  (∀ tx ∈ txs, tx.state = TxState.open_) ∧
  (∀ tx ∈ txs, tx.nested = false) ∧
  (txs.map (fun tx => tx.objectStore)).Nodup ∧
  (∀ tx1 ∈ txs, ∀ tx2 ∈ txs, ∀ j1 j2 : Nat,
    tx1.objectStore.jungleDB = some j1 → tx2.objectStore.jungleDB = some j2 → j1 = j2)


/-- The loop invariant of isConsistentLoop: conditions on the remaining
transactions given the accumulated set of seen object stores and the current
jdb value. -/
def loopSpec (txs : List CTx) (seen : List ObjectStoreRef) (jdb : Option Nat) : Prop :=
  (∀ tx ∈ txs, tx.state = TxState.open_) ∧
  (∀ tx ∈ txs, tx.nested = false) ∧
  (txs.map (fun tx => tx.objectStore)).Nodup ∧
  (∀ tx ∈ txs, tx.objectStore ∉ seen) ∧
  (∀ tx1 ∈ txs, ∀ tx2 ∈ txs, ∀ j1 j2 : Nat,
    tx1.objectStore.jungleDB = some j1 → tx2.objectStore.jungleDB = some j2 → j1 = j2) ∧
  (∀ j : Nat, jdb = some j → ∀ tx ∈ txs, ∀ j1 : Nat,
    tx.objectStore.jungleDB = some j1 → j1 = j)

end CombinedTransaction


/- ### CombinedTransaction.commit and the combined flush (C1, C3) -/

/-- A leaf transaction participating in a combined commit.  The committable
field models the result of Transaction._isCommittable (the optimistic-conflict
probe against the parent), removes and puts are the buffered deltas. -/
structure LeafTx where
  storeId : Nat
  committable : Bool
  state : TxState
  removes : List Nat
  puts : List (Nat × Nat)
deriving Repr

/-- A backend object store: an association list from primary key to value. -/
abbrev Store := List (Nat × Nat)

/-- Modelled from the spec: applying a committed transaction to a backend store
(the PersistentBackend applySync contract): removed keys are deleted, then all
modified keys are written. -/
def applyTx (s : Store) (tx : LeafTx) : Store :=
  let s1 := tx.removes.foldl (fun acc k => acc.filter (fun e => !(e.1 == k))) s
  tx.puts.foldl (fun acc kv => acc.filter (fun e => !(e.1 == kv.1)) ++ [kv]) s1

/-- Modelled from the spec: Transaction._commitBackend of a leaf transaction,
which transitions the transaction to COMMITTED; its deltas are made visible by
the surrounding combined flush. -/
def LeafTx.commitBackend (tx : LeafTx) : LeafTx :=
  { tx with state := TxState.committed }

/-- Modelled from the spec: Transaction._abortBackend of a leaf transaction,
which transitions the transaction to ABORTED and discards its buffer. -/
def LeafTx.abortBackend (tx : LeafTx) : LeafTx :=
  { tx with state := TxState.aborted }

/-- The database, as the family of its per-store backends. -/
abbrev DBState := Nat → Store

/-- Embedding of JungleDB.commitCombined applied to a CombinedTransaction: every
participant is applied to its own object store inside one backend-level atomic
write scope (a single LMDB transaction). -/
def commitCombinedFlush (db : DBState) (txs : List LeafTx) : DBState :=
  txs.foldl
    (fun d tx => fun sid => if sid = tx.storeId then applyTx (d sid) tx else d sid) db

/-- Embedding of CombinedTransaction.commit: when _isCommittable holds for every
participant the combined flush runs and true is returned; otherwise abort, which
calls _abortBackend on every participant, and false is returned. -/
def CombinedTransaction.commit (txs : List LeafTx) (db : DBState) :
    Bool × List LeafTx × DBState :=
  if txs.all (fun tx => tx.committable) then
    (true, txs.map LeafTx.commitBackend, commitCombinedFlush db txs)
  else
    (false, txs.map LeafTx.abortBackend, db)

/-- The coordinator state of CombinedTransaction.onFlushable: the member
transactions, the flushable map (JS Map, insertion ordered, from transaction to
its registered callback) and the list of collected preprocessing hooks. -/
structure FlushState where
  transactions : List Nat
  flushable : List (Nat × Option Nat)
  preprocessing : List Nat
deriving Repr

/-- Observable events of the combined flush: a preprocessing hook runs, the
single combined backend commit runs, or a per-store callback is invoked. -/
inductive FlushEvent where
  | preprocess (f : Nat)
  | commitCombined
  | callback (c : Option Nat)
deriving DecidableEq, Repr

/-- Embedding of JS Map.prototype.set: an existing key is overwritten in place
(keeping its insertion position), a new key is appended. -/
def mapSet (m : List (Nat × Option Nat)) (k : Nat) (v : Option Nat) :
    List (Nat × Option Nat) :=
  if m.any (fun e => e.1 == k) then m.map (fun e => if e.1 == k then (k, v) else e)
  else m ++ [(k, v)]

/-- Embedding of the collection of preprocessing hooks in onFlushable: a null
hook is not collected, any other hook is appended. -/
def collectPre (pre : List Nat) (hook : Option Nat) : List Nat :=
  match hook with
  | some p => pre ++ [p]
  | none => pre

/-- Embedding of CombinedTransaction.onFlushable: record the transaction as
flushable together with its callback, collect its preprocessing hook; when all
member transactions are flushable, run all preprocessing hooks, then the single
combined backend commit, then every registered callback, returning true;
otherwise return false without any write.  The third component is the trace of
events performed by the call, in order. -/
def CombinedTransaction.onFlushable (st : FlushState) (tx : Nat) (callback : Option Nat)
    (preprocessing : Option Nat) : Bool × FlushState × List FlushEvent :=
  let fl := mapSet st.flushable tx callback
  let pre := collectPre st.preprocessing preprocessing
  let st1 : FlushState := { st with flushable := fl, preprocessing := pre }
  if st.transactions.all (fun t => fl.any (fun e => e.1 == t)) then
    (true, st1,
     pre.map FlushEvent.preprocess
       ++ FlushEvent.commitCombined :: fl.map (fun e => FlushEvent.callback e.2))
  else
    (false, st1, [])

/-- Concrete participants used by the witnesses below. -/
def sampleTxs : List LeafTx :=
  [⟨0, true, TxState.open_, [], [(1, 2)]⟩, ⟨1, true, TxState.open_, [3], []⟩]

/-- A concrete database with two empty stores. -/
def sampleDB : DBState := fun _ => []


/- ### PersistentIndex over LMDB (first and second classes in the lmdb source file) -/

mutual
/-- JavaScript values as stored in an object store: either an abstract
non-object primitive (an atom standing for a string, number, boolean and so
on) or an object with named attributes.  Attribute names are
modelled as naturals. -/
inductive JsValue where
  | prim (atom : Int)
  | obj (fields : JsFields)
deriving DecidableEq, Repr
/-- Attribute list of a JavaScript object, in insertion order. -/
inductive JsFields where
  | fnil
  | fcons (name : Nat) (value : JsValue) (rest : JsFields)
deriving DecidableEq, Repr
end

/-- Attribute access on an object. -/
def JsFields.lookup (a : Nat) : JsFields → Option JsValue
  | JsFields.fnil => none
  | JsFields.fcons n v rest => if n = a then some v else JsFields.lookup a rest

/-- Modelled from the spec: ObjectUtils.byKeyPath (whose source lies outside
the repository slice) walks the key path attribute by attribute; a missing
attribute, or a non-object value, at any depth yields undefined (none), never
an error. -/
def byKeyPath (v : JsValue) (path : List Nat) : Option JsValue :=
  match path with
  | [] => some v
  | a :: rest =>
    match v with
    | JsValue.obj fields =>
      match fields.lookup a with
      | some w => byKeyPath w rest
      | none => none
    | _ => none

/-- Embedding of PersistentIndex._indexKey for a secondary index (an index
with a key path; the primary-index branch that returns the primary key is not
used by secondary indices): an undefined object yields undefined, otherwise
the key path is applied to the object. -/
def PersistentIndex.indexKeyOf (keyPath : List Nat) (obj : Option JsValue) : Option JsValue :=
  match obj with
  | none => none
  | some o => byKeyPath o keyPath

/-- The LMDB sub-database backing a persistent index: a finite map from
secondary key to the stored record, which is an array of primary keys for a
non-unique index and a single primary key, modelled as a singleton array, for
a unique index. -/
abbrev IndexTable := List (JsValue × List Nat)

/-- Modelled from the spec: LMDBBackend._get on the index table, a plain
finite-map lookup. -/
def tableGet (t : IndexTable) (s : JsValue) : Option (List Nat) :=
  (t.find? (fun e => e.1 == s)).map (fun e => e.2)

/-- Modelled from the spec: LMDBBackend._put on the index table, overwriting
an existing entry in place or appending a new one. -/
def tablePut (t : IndexTable) (s : JsValue) (v : List Nat) : IndexTable :=
  if t.any (fun e => e.1 == s) then t.map (fun e => if e.1 == s then (s, v) else e)
  else t ++ [(s, v)]

/-- Modelled from the spec: LMDBBackend._remove on the index table, deleting
the entry of a key. -/
def tableRemove (t : IndexTable) (s : JsValue) : IndexTable :=
  t.filter (fun e => !(e.1 == s))

/-- Embedding of pKeys.splice(pKeys.indexOf(primaryKey), 1): the first
occurrence of the primary key is removed; when it is absent indexOf yields -1
and splice(-1, 1) removes the last element of the array. -/
def spliceOut (ps : List Nat) (p : Nat) : List Nat :=
  if ps.contains p then ps.erase p else ps.dropLast

/-- Embedding of PersistentIndex._insert for a scalar (non-array) secondary
key, for which the multiEntry wrapping produces a one-element loop: on a
unique index any existing record for the secondary key raises the uniqueness
violation; on a non-unique index the primary key is appended to the array. -/
def PersistentIndex.insertHelper (unique : Bool) (primaryKey : Nat) (iKey : JsValue)
    (t : IndexTable) : Except DbError IndexTable :=
  match tableGet t iKey with
  | some ps =>
    if unique then Except.error DbError.uniquenessViolation
    else Except.ok (tablePut t iKey (ps ++ [primaryKey]))
  | none => Except.ok (tablePut t iKey [primaryKey])

/-- Embedding of PersistentIndex._remove for a scalar secondary key: on a
non-unique index with more than one primary key the primary key is spliced out
of the array; otherwise the whole entry is removed. -/
def PersistentIndex.removeHelper (unique : Bool) (primaryKey : Nat) (iKey : JsValue)
    (t : IndexTable) : IndexTable :=
  match tableGet t iKey with
  | some ps =>
    if unique = false ∧ 1 < ps.length then tablePut t iKey (spliceOut ps primaryKey)
    else tableRemove t iKey
  | none => t

/-- Embedding of PersistentIndex.put: extract the secondary keys of the old
and the new value, remove the old association when the key path resolves on
the old value, then insert the new association when it resolves on the new
value.  Insertion may raise the uniqueness violation, which putSync throws
synchronously and the asynchronous put surfaces as a rejection. -/
def PersistentIndex.put (unique : Bool) (keyPath : List Nat) (key : Nat)
    (value oldValue : Option JsValue) (t : IndexTable) : Except DbError IndexTable :=
  let oldIKey := PersistentIndex.indexKeyOf keyPath oldValue
  let newIKey := PersistentIndex.indexKeyOf keyPath value
  let t1 := match oldIKey with
    | some s => PersistentIndex.removeHelper unique key s t
    | none => t
  match newIKey with
  | some s => PersistentIndex.insertHelper unique key s t1
  | none => Except.ok t1

/-- Embedding of PersistentIndex.remove: drop the association extracted from
the old value, when the key path resolves on it. -/
def PersistentIndex.remove (unique : Bool) (keyPath : List Nat) (key : Nat)
    (oldValue : Option JsValue) (t : IndexTable) : IndexTable :=
  match PersistentIndex.indexKeyOf keyPath oldValue with
  | some s => PersistentIndex.removeHelper unique key s t
  | none => t


/- ### IndexedDB index adapters (third class in the lmdb source file, and
src/main/platform/browser/PersistentIndex.js) -/

/-- One record of an IndexedDB secondary index: the secondary key extracted by
the key path, the primary key of the record, and its stored value, all abstract atoms. -/
structure IndexRecord where
  sKey : Nat
  pKey : Nat
  val : Nat
deriving DecidableEq, Repr

/-- Embedding of KeyRange over the totally ordered secondary keys. -/
structure KeyRangeN where
  lower : Option Nat
  upper : Option Nat
  lowerOpen : Bool
  upperOpen : Bool
deriving DecidableEq, Repr

/-- Membership of a secondary key in a KeyRange: the standard bounded interval. -/
def KeyRangeN.includes (q : KeyRangeN) (s : Nat) : Bool :=
  (match q.lower with
    | none => true
    | some l => if q.lowerOpen then decide (l < s) else decide (l ≤ s))
  && (match q.upper with
    | none => true
    | some u => if q.upperOpen then decide (s < u) else decide (s ≤ u))

/-- A null query matches everything, a KeyRange query by membership. -/
def inQuery (q : Option KeyRangeN) (s : Nat) : Bool :=
  match q with
  | none => true
  | some r => r.includes s

/-- The ascending (direction next) IndexedDB cursor over an index and a query:
the index records whose secondary key lies in the range, in index order.  The
index stores its records ascending by secondary key with ties ascending by
primary key; the theorems below carry that sortedness as a hypothesis. -/
def cursorAsc (entries : List IndexRecord) (q : Option KeyRangeN) : List IndexRecord :=
  entries.filter (fun e => inQuery q e.sKey)

/-- The descending (direction prev) IndexedDB cursor. -/
def cursorDesc (entries : List IndexRecord) (q : Option KeyRangeN) : List IndexRecord :=
  (cursorAsc entries q).reverse

/-- The strict index order on records: by secondary key, ties by primary key. -/
abbrev recLt (a b : IndexRecord) : Prop :=
  a.sKey < b.sKey ∨ (a.sKey = b.sKey ∧ a.pKey < b.pKey)

/-- Embedding of the IndexedDB-wrapper PersistentIndex.maxValues of the lmdb
source file: open a prev cursor, remember the first key as maxKey, and collect
record values while the cursor key still equals maxKey. -/
def IDBPersistentIndex.maxValues (entries : List IndexRecord) (q : Option KeyRangeN) :
    List Nat :=
  match (cursorDesc entries q).head? with
  | none => []
  | some e => ((cursorDesc entries q).takeWhile (fun x => x.sKey == e.sKey)).map
      (fun x => x.val)

/-- Embedding of the IndexedDB-wrapper PersistentIndex.maxKeys: as maxValues
but collecting the primary keys into the result set (insertion ordered). -/
def IDBPersistentIndex.maxKeys (entries : List IndexRecord) (q : Option KeyRangeN) :
    List Nat :=
  match (cursorDesc entries q).head? with
  | none => []
  | some e => ((cursorDesc entries q).takeWhile (fun x => x.sKey == e.sKey)).map
      (fun x => x.pKey)

/-- Embedding of the IndexedDB-wrapper PersistentIndex.minValues: the next
cursor analogue of maxValues. -/
def IDBPersistentIndex.minValues (entries : List IndexRecord) (q : Option KeyRangeN) :
    List Nat :=
  match (cursorAsc entries q).head? with
  | none => []
  | some e => ((cursorAsc entries q).takeWhile (fun x => x.sKey == e.sKey)).map
      (fun x => x.val)

/-- Embedding of the IndexedDB-wrapper PersistentIndex.minKeys. -/
def IDBPersistentIndex.minKeys (entries : List IndexRecord) (q : Option KeyRangeN) :
    List Nat :=
  match (cursorAsc entries q).head? with
  | none => []
  | some e => ((cursorAsc entries q).takeWhile (fun x => x.sKey == e.sKey)).map
      (fun x => x.pKey)

/-- Embedding of the browser-platform PersistentIndex.maxValues
(src/main/platform/browser/PersistentIndex.js): open a prev cursor and resolve
immediately with the first record only (no cursor.continue loop). -/
def BrowserPersistentIndex.maxValues (entries : List IndexRecord) (q : Option KeyRangeN) :
    List Nat :=
  match (cursorDesc entries q).head? with
  | none => []
  | some e => [e.val]

/-- Embedding of the browser-platform PersistentIndex.maxKeys: the primary key
of the first prev-cursor record only. -/
def BrowserPersistentIndex.maxKeys (entries : List IndexRecord) (q : Option KeyRangeN) :
    List Nat :=
  match (cursorDesc entries q).head? with
  | none => []
  | some e => [e.pKey]

/-- The query result records whose secondary key is the greatest inside the
range, as the specification words it, in index (ascending primary key) order. -/
def maxEntriesSpec (entries : List IndexRecord) (q : Option KeyRangeN) : List IndexRecord :=
  (cursorAsc entries q).filter
    (fun e => (cursorAsc entries q).all (fun x => decide (x.sKey ≤ e.sKey)))

/-- The query result records whose secondary key is the least inside the range. -/
def minEntriesSpec (entries : List IndexRecord) (q : Option KeyRangeN) : List IndexRecord :=
  (cursorAsc entries q).filter
    (fun e => (cursorAsc entries q).all (fun x => decide (e.sKey ≤ x.sKey)))

/-- A two-record index in which two primary keys share the maximal secondary
key, used to separate the two maxValues implementations. -/
def twoMaxEntries : List IndexRecord := [⟨1, 1, 10⟩, ⟨1, 2, 20⟩]


/- ### JungleDB schema operations (first class in the lmdb source file) -/

/-- The upgradeCondition option as accepted by createObjectStore and
deleteObjectStore: null, a boolean literal, or a callback on the pair of
versions. -/
inductive UpgradeCond where
  | null
  | bool (b : Bool)
  | fn (f : Nat → Nat → Bool)

/-- Embedding of the condition check of the deletion loop in JungleDB._initDB:
upgradeCondition === null and upgradeCondition === true apply the drop; any
other value is invoked as a function, so a callback yields its result while
the boolean literal false, not being a function, raises a TypeError. -/
def evalDeleteCondition (c : UpgradeCond) (oldVersion newVersion : Nat) :
    Except DbError Bool :=
  match c with
  | UpgradeCond.null => Except.ok true
  | UpgradeCond.bool true => Except.ok true
  | UpgradeCond.bool false => Except.error DbError.typeErrorNotAFunction
  | UpgradeCond.fn f => Except.ok (f oldVersion newVersion)

/-- The deletion loop of JungleDB._initDB: each registered table whose
condition evaluates true is truncated; a raised TypeError propagates out of
the loop.  The result lists the truncated tables in order. -/
def runDeletes (toDelete : List (Nat × UpgradeCond)) (oldVersion newVersion : Nat) :
    Except DbError (List Nat) :=
  match toDelete with
  | [] => Except.ok []
  | (t, c) :: rest =>
    match evalDeleteCondition c oldVersion newVersion with
    | Except.error e => Except.error e
    | Except.ok true =>
      match runDeletes rest oldVersion newVersion with
      | Except.error e => Except.error e
      | Except.ok l => Except.ok (t :: l)
    | Except.ok false => runDeletes rest oldVersion newVersion

/-- Embedding of the store-deletion part of JungleDB._initDB: the registered
deletions run only when the declared version exceeds the stored one. -/
def JungleDB.initDBDeletes (storedVersion dbVersion : Nat)
    (toDelete : List (Nat × UpgradeCond)) : Except DbError (List Nat) :=
  if storedVersion < dbVersion then runDeletes toDelete storedVersion dbVersion
  else Except.ok []

/-- The options record of createObjectStore (the codec is irrelevant to the
claims and omitted). -/
structure StoreOptions where
  persistent : Bool
  upgradeCondition : UpgradeCond

/-- The schema-relevant state of a JungleDB instance: the connected flag, a
fresh-name counter for ObjectStore identities, the registered object stores by
table name, the registered backends, and the pending deletions. -/
structure JDB where
  connected : Bool
  fresh : Nat
  objectStores : List (Nat × Nat)
  objectStoreBackends : List (Nat × StoreOptions)
  objectStoresToDelete : List (Nat × UpgradeCond)

/-- Embedding of JungleDB.createObjectStore: while connected it throws; when
the table name is already registered the existing ObjectStore object is
returned unchanged; otherwise a fresh ObjectStore is created and, with its
backend, registered. -/
def JungleDB.createObjectStore (db : JDB) (tableName : Nat) (opts : StoreOptions) :
    Except DbError Nat × JDB :=
  if db.connected then (Except.error DbError.cannotCreateWhileConnected, db)
  else
    match db.objectStores.find? (fun e => e.1 == tableName) with
    | some e => (Except.ok e.2, db)
    | none =>
      (Except.ok db.fresh,
       { db with
          fresh := db.fresh + 1,
          objectStores := db.objectStores ++ [(tableName, db.fresh)],
          objectStoreBackends := db.objectStoreBackends ++ [(db.fresh, opts)] })

/-- Embedding of JungleDB.deleteObjectStore: while connected it throws;
otherwise the deletion is recorded for the next connect. -/
def JungleDB.deleteObjectStore (db : JDB) (tableName : Nat) (cond : UpgradeCond) :
    Except DbError Unit × JDB :=
  if db.connected then (Except.error DbError.cannotDeleteWhileConnected, db)
  else
    (Except.ok (),
     { db with objectStoresToDelete := db.objectStoresToDelete ++ [(tableName, cond)] })

/-- A concrete connected instance, used by the witnesses below. -/
def connectedDB : JDB :=
  { connected := true, fresh := 0, objectStores := [], objectStoreBackends := [],
    objectStoresToDelete := [] }

/-- A concrete disconnected instance. -/
def freshDB : JDB :=
  { connected := false, fresh := 0, objectStores := [], objectStoreBackends := [],
    objectStoresToDelete := [] }

/- ======================= PART 2 : THEOREMS ======================= -/





namespace Synchronizer

theorem doWork_snd (jobs : List SyncJob) :
    (doWork jobs).2 = jobs.map (fun j => (j.id, j.run)) := by
  induction jobs with
  | nil => rfl
  | cons j rest ih => simp [doWork, ih]

theorem doWork_fst_length (jobs : List SyncJob) :
    (doWork jobs).1.length = 2 * jobs.length := by
  induction jobs with
  | nil => rfl
  | cons j rest ih => simp [doWork, ih]; ring

theorem doWork_fst_get_even (jobs : List SyncJob) (a : Nat) :
    (doWork jobs).1[2 * a]? = jobs[a]?.map (fun j => SyncEvent.start j.id) := by
  induction jobs generalizing a with
  | nil => simp [doWork]
  | cons j rest ih =>
    cases a with
    | zero => simp [doWork]
    | succ a =>
      have h2 : 2 * (a + 1) = 2 * a + 1 + 1 := by ring
      simp [doWork, h2, ih]

theorem doWork_fst_get_odd (jobs : List SyncJob) (a : Nat) :
    (doWork jobs).1[2 * a + 1]? = jobs[a]?.map (fun j => SyncEvent.finish j.id) := by
  induction jobs generalizing a with
  | nil => simp [doWork]
  | cons j rest ih =>
    cases a with
    | zero => simp [doWork]
    | succ a =>
      have h2 : 2 * (a + 1) + 1 = 2 * a + 1 + 1 + 1 := by ring
      simp [doWork, h2, ih]


end Synchronizer

/-- C4: for every sequence of functions pushed to Synchronizer.push, the worker
executes them strictly one at a time in FIFO order: the job at queue position a
finishes (trace position 2a+1) strictly before the job at any later queue
position b starts (trace position 2b), and each submitter's promise settles with
exactly the value returned, or the error thrown, by its own function. -/
theorem c4_synchronizer_fifo_results (jobs : List SyncJob) (a b : Nat)
    (hab : a < b) (_hb : b < jobs.length) :
    (Synchronizer.doWork jobs).2[a]? = jobs[a]?.map (fun j => (j.id, j.run))
    ∧ (Synchronizer.doWork jobs).1[2 * a + 1]?
        = jobs[a]?.map (fun j => SyncEvent.finish j.id)
    ∧ (Synchronizer.doWork jobs).1[2 * b]?
        = jobs[b]?.map (fun j => SyncEvent.start j.id)
    ∧ 2 * a + 1 < 2 * b := by
  refine ⟨?_, Synchronizer.doWork_fst_get_odd jobs a, Synchronizer.doWork_fst_get_even jobs b, by omega⟩
  rw [Synchronizer.doWork_snd]
  simp [List.getElem?_map]

/-- Witness for C4 at a concrete queue of three jobs. -/
theorem c4_synchronizer_fifo_results_witness :
    (0 : Nat) < 2 ∧ 2 < ([⟨10, Except.ok 1⟩, ⟨11, Except.error 7⟩, ⟨12, Except.ok 3⟩] : List SyncJob).length
    ∧ ((Synchronizer.doWork [⟨10, Except.ok 1⟩, ⟨11, Except.error 7⟩, ⟨12, Except.ok 3⟩]).2[0]?
        = (([⟨10, Except.ok 1⟩, ⟨11, Except.error 7⟩, ⟨12, Except.ok 3⟩] : List SyncJob)[0]?).map (fun j => (j.id, j.run))
    ∧ (Synchronizer.doWork [⟨10, Except.ok 1⟩, ⟨11, Except.error 7⟩, ⟨12, Except.ok 3⟩]).1.get? (2 * 0 + 1)
        = (([⟨10, Except.ok 1⟩, ⟨11, Except.error 7⟩, ⟨12, Except.ok 3⟩] : List SyncJob)[0]?).map (fun j => SyncEvent.finish j.id)
    ∧ (Synchronizer.doWork [⟨10, Except.ok 1⟩, ⟨11, Except.error 7⟩, ⟨12, Except.ok 3⟩]).1.get? (2 * 2)
        = (([⟨10, Except.ok 1⟩, ⟨11, Except.error 7⟩, ⟨12, Except.ok 3⟩] : List SyncJob)[2]?).map (fun j => SyncEvent.start j.id)
    ∧ 2 * 0 + 1 < 2 * 2) :=
  ⟨by decide, by decide,
   c4_synchronizer_fifo_results [⟨10, Except.ok 1⟩, ⟨11, Except.error 7⟩, ⟨12, Except.ok 3⟩] 0 2
     (by decide) (by decide)⟩

/- ### CombinedTransaction (src/main/generic/CombinedTransaction.js) -/

namespace CombinedTransaction

theorem loopSpec_step (tx : CTx) (rest : List CTx) (seen : List ObjectStoreRef)
    (jdb J : Option Nat)
    (hst : tx.state = TxState.open_) (hn : tx.nested = false)
    (hmem : tx.objectStore ∉ seen)
    (hJ : J = match jdb with | none => tx.objectStore.jungleDB | some j0 => some j0)
    (hok : ∀ j0 : Nat, jdb = some j0 → ∀ j1 : Nat, tx.objectStore.jungleDB = some j1 → j1 = j0) :
    loopSpec rest (tx.objectStore :: seen) J ↔ loopSpec (tx :: rest) seen jdb := by
  have hB : ∀ j : Nat, jdb = some j → J = some j := by
    intro j hj; rw [hJ, hj]
  have hHead : ∀ j1 : Nat, tx.objectStore.jungleDB = some j1 → J = some j1 := by
    intro j1 h1
    cases hjdb : jdb with
    | none => rw [hJ, hjdb, h1]
    | some j0 => rw [hJ, hjdb, hok j0 hjdb j1 h1]
  have hC : ∀ j : Nat, J = some j →
      jdb = some j ∨ tx.objectStore.jungleDB = some j := by
    intro j hj
    cases hjdb : jdb with
    | none => right; rw [hJ, hjdb] at hj; exact hj
    | some j0 =>
      left
      rw [hJ, hjdb] at hj
      exact hj
  constructor
  · rintro ⟨hopen, hnst, hnd, hseen, hagree, hjd⟩
    refine ⟨?_, ?_, ?_, ?_, ?_, ?_⟩
    · intro t ht; rcases List.mem_cons.1 ht with rfl | ht
      · exact hst
      · exact hopen t ht
    · intro t ht; rcases List.mem_cons.1 ht with rfl | ht
      · exact hn
      · exact hnst t ht
    · refine List.nodup_cons.2 ⟨?_, hnd⟩
      intro hc
      rcases List.mem_map.1 hc with ⟨t, ht, hts⟩
      exact (hseen t ht) (by rw [hts]; exact List.mem_cons_self _ _)
    · intro t ht; rcases List.mem_cons.1 ht with rfl | ht
      · exact hmem
      · intro hs; exact (hseen t ht) (List.mem_cons_of_mem _ hs)
    · intro t1 ht1 t2 ht2 j1 j2 h1 h2
      rcases List.mem_cons.1 ht1 with he1 | ht1' <;>
        rcases List.mem_cons.1 ht2 with he2 | ht2'
      · rw [he1] at h1; rw [he2] at h2
        exact Option.some_inj.1 ((h1.symm).trans h2)
      · rw [he1] at h1
        exact (hjd j1 (hHead j1 h1) t2 ht2' j2 h2).symm
      · rw [he2] at h2
        exact hjd j2 (hHead j2 h2) t1 ht1' j1 h1
      · exact hagree t1 ht1' t2 ht2' j1 j2 h1 h2
    · intro j hj t ht j1 h1
      rcases List.mem_cons.1 ht with rfl | ht
      · exact hok j hj j1 h1
      · exact hjd j (hB j hj) t ht j1 h1
  · rintro ⟨hopen, hnst, hnd, hseen, hagree, hjd⟩
    have hhd : tx.objectStore ∉ (rest.map (fun t => t.objectStore)) :=
      (List.nodup_cons.1 hnd).1
    refine ⟨?_, ?_, ?_, ?_, ?_, ?_⟩
    · intro t ht; exact hopen t (List.mem_cons_of_mem tx ht)
    · intro t ht; exact hnst t (List.mem_cons_of_mem tx ht)
    · exact (List.nodup_cons.1 hnd).2
    · intro t ht hs
      rcases List.mem_cons.1 hs with he | hs
      · exact hhd (by rw [← he]; exact List.mem_map_of_mem _ ht)
      · exact (hseen t (List.mem_cons_of_mem tx ht)) hs
    · intro t1 ht1 t2 ht2 j1 j2 h1 h2
      exact hagree t1 (List.mem_cons_of_mem tx ht1) t2 (List.mem_cons_of_mem tx ht2) j1 j2 h1 h2
    · intro j hj t ht j1 h1
      rcases hC j hj with hc | hc
      · exact hjd j hc t (List.mem_cons_of_mem tx ht) j1 h1
      · exact hagree t (List.mem_cons_of_mem tx ht) tx (List.mem_cons_self tx rest) j1 j h1 hc

theorem isConsistentLoop_iff (txs : List CTx) (seen : List ObjectStoreRef) (jdb : Option Nat) :
    isConsistentLoop txs seen jdb = true ↔ loopSpec txs seen jdb := by
  induction txs generalizing seen jdb with
  | nil =>
    simp [isConsistentLoop, loopSpec]
  | cons tx rest ih =>
    by_cases hst : tx.state = TxState.open_
    case neg =>
      have hL : isConsistentLoop (tx :: rest) seen jdb = false := by
        simp [isConsistentLoop, hst]
      rw [hL]
      simp only [Bool.false_eq_true, false_iff]
      rintro ⟨hopen, -⟩
      exact hst (hopen tx (List.mem_cons_self tx rest))
    case pos =>
    by_cases hn : tx.nested = true
    case pos =>
      have hL : isConsistentLoop (tx :: rest) seen jdb = false := by
        simp [isConsistentLoop, hst, hn]
      rw [hL]
      simp only [Bool.false_eq_true, false_iff]
      rintro ⟨-, hnst, -⟩
      rw [hnst tx (List.mem_cons_self tx rest)] at hn
      cases hn
    case neg =>
    have hn' : tx.nested = false := by
      cases hx : tx.nested
      · rfl
      · exact absurd hx hn
    by_cases hmem : tx.objectStore ∈ seen
    case pos =>
      have hL : isConsistentLoop (tx :: rest) seen jdb = false := by
        simp [isConsistentLoop, hst, hn', hmem]
      rw [hL]
      simp only [Bool.false_eq_true, false_iff]
      rintro ⟨-, -, -, hseen, -⟩
      exact hseen tx (List.mem_cons_self tx rest) hmem
    case neg =>
    cases hjdb : jdb with
    | none =>
      have hL : isConsistentLoop (tx :: rest) seen none
          = isConsistentLoop rest (tx.objectStore :: seen) tx.objectStore.jungleDB := by
        simp [isConsistentLoop, hst, hn', hmem]
      rw [hL, ih]
      exact loopSpec_step tx rest seen none tx.objectStore.jungleDB hst hn' hmem rfl
        (fun j0 hj0 => by cases hj0)
    | some j0 =>
      rcases hx : tx.objectStore.jungleDB with - | j1
      · have hL : isConsistentLoop (tx :: rest) seen (some j0)
            = isConsistentLoop rest (tx.objectStore :: seen) (some j0) := by
          simp [isConsistentLoop, hst, hn', hmem, hx]
        rw [hL, ih]
        exact loopSpec_step tx rest seen (some j0) (some j0) hst hn' hmem rfl
          (fun j hj j1 h1 => by rw [hx] at h1; cases h1)
      · by_cases hj : j1 = j0
        case pos =>
          subst hj
          have hL : isConsistentLoop (tx :: rest) seen (some j1)
              = isConsistentLoop rest (tx.objectStore :: seen) (some j1) := by
            simp [isConsistentLoop, hst, hn', hmem, hx]
          rw [hL, ih]
          exact loopSpec_step tx rest seen (some j1) (some j1) hst hn' hmem rfl
            (fun j hjj j2 h2 => by
              rw [hx] at h2
              exact (Option.some_inj.1 h2).symm.trans (Option.some_inj.1 hjj))
        case neg =>
          have hL : isConsistentLoop (tx :: rest) seen (some j0) = false := by
            simp [isConsistentLoop, hst, hn', hmem, hx, hj]
          rw [hL]
          simp only [Bool.false_eq_true, false_iff]
          rintro ⟨-, -, -, -, -, hjd⟩
          exact hj (hjd j0 rfl tx (List.mem_cons_self tx rest) j1 hx)


end CombinedTransaction

/-- C2: the CombinedTransaction constructor accepts a list of transactions (does
not throw) if and only if every input is OPEN, no input is nested, no two inputs
share an ObjectStore, and all inputs belong to the same JungleDB instance, where
a volatile store with null jungleDB is treated as belonging to any instance. -/
theorem c2_constructor_preconditions (txs : List CTx) :
    CombinedTransaction.isConsistent txs = true ↔ CombinedTransaction.specConsistent txs := by
  rw [CombinedTransaction.isConsistent, CombinedTransaction.isConsistentLoop_iff,
    CombinedTransaction.loopSpec, CombinedTransaction.specConsistent]
  constructor
  · rintro ⟨h1, h2, h3, -, h5, -⟩; exact ⟨h1, h2, h3, h5⟩
  · rintro ⟨h1, h2, h3, h5⟩
    refine ⟨h1, h2, h3, ?_, h5, ?_⟩
    · intro t ht h; simp at h
    · intro j hj; cases hj


/-- Every element of a list delivered by the bracket lookup is a member. -/
theorem getElemSome_mem {α : Type} (l : List α) (i : Nat) (a : α) (h : l[i]? = some a) :
    a ∈ l := by
  have h1 : i < l.length := by
    by_contra hc
    rw [List.getElem?_eq_none (by omega)] at h
    cases h
  rw [List.getElem?_eq_getElem h1] at h
  rw [← Option.some_inj.1 h]
  exact l.getElem_mem h1

theorem commitCombinedFlush_cons (db : DBState) (t : LeafTx) (rest : List LeafTx) :
    commitCombinedFlush db (t :: rest)
      = commitCombinedFlush
          (fun sid => if sid = t.storeId then applyTx (db sid) t else db sid) rest := rfl

theorem commitCombinedFlush_not_mem (db : DBState) (txs : List LeafTx) (sid : Nat)
    (h : sid ∉ txs.map (fun tx => tx.storeId)) :
    commitCombinedFlush db txs sid = db sid := by
  induction txs generalizing db with
  | nil => rfl
  | cons t rest ih =>
    rw [commitCombinedFlush_cons]
    have h1 : sid ∉ rest.map (fun tx => tx.storeId) := by
      intro hc; exact h (List.mem_cons_of_mem _ hc)
    have h2 : sid ≠ t.storeId := by
      intro hc; exact h (by rw [hc]; exact List.mem_cons_self _ _)
    rw [ih _ h1, if_neg h2]

theorem commitCombinedFlush_apply (db : DBState) (txs : List LeafTx)
    (h : (txs.map (fun tx => tx.storeId)).Nodup) :
    ∀ tx ∈ txs, commitCombinedFlush db txs tx.storeId = applyTx (db tx.storeId) tx := by
  induction txs generalizing db with
  | nil => intro tx htx; cases htx
  | cons t rest ih =>
    intro tx htx
    have hhd : t.storeId ∉ rest.map (fun tx => tx.storeId) := (List.nodup_cons.1 h).1
    rcases List.mem_cons.1 htx with he | hm
    · rw [he, commitCombinedFlush_cons,
        commitCombinedFlush_not_mem _ _ _ hhd, if_pos rfl]
    · rw [commitCombinedFlush_cons, ih _ (List.nodup_cons.1 h).2 tx hm]
      have hne : tx.storeId ≠ t.storeId := by
        intro hc
        exact hhd (by rw [← hc]; exact List.mem_map_of_mem _ hm)
      rw [if_neg hne]

/-- C1: the outcome of a combined commit is all-or-none: commit returns true
exactly when every participant is committable, in which case every participant
transitions to COMMITTED and each store receives its participant deltas inside
the single combined flush; when any participant is not committable, commit
returns false, every participating transaction (not only the failing one) is
aborted via _abortBackend, and no store is modified. -/
theorem c1_commit_combined_all_or_none (txs : List LeafTx) (db : DBState) :
    ((CombinedTransaction.commit txs db).1 = true
      ↔ txs.all (fun tx => tx.committable) = true)
    ∧ ((CombinedTransaction.commit txs db).1 = true →
        (∀ tx ∈ (CombinedTransaction.commit txs db).2.1, tx.state = TxState.committed)
        ∧ ((txs.map (fun tx => tx.storeId)).Nodup →
            ∀ tx ∈ txs,
              (CombinedTransaction.commit txs db).2.2 tx.storeId
                = applyTx (db tx.storeId) tx))
    ∧ ((CombinedTransaction.commit txs db).1 = false →
        (∀ tx ∈ (CombinedTransaction.commit txs db).2.1, tx.state = TxState.aborted)
        ∧ (CombinedTransaction.commit txs db).2.2 = db) := by
  by_cases h : txs.all (fun tx => tx.committable) = true
  case pos =>
    have he : CombinedTransaction.commit txs db
        = (true, txs.map LeafTx.commitBackend, commitCombinedFlush db txs) := by
      rw [CombinedTransaction.commit, if_pos h]
    rw [he]
    refine ⟨by simp [h], ?_, ?_⟩
    · intro hx
      refine ⟨?_, ?_⟩
      · intro tx htx
        rcases List.mem_map.1 htx with ⟨t, -, rfl⟩
        rfl
      · intro hnd tx htx
        exact commitCombinedFlush_apply db txs hnd tx htx
    · intro hf; cases hf
  case neg =>
    have he : CombinedTransaction.commit txs db
        = (false, txs.map LeafTx.abortBackend, db) := by
      rw [CombinedTransaction.commit, if_neg h]
    rw [he]
    refine ⟨by simp [h], ?_, ?_⟩
    · intro ht; cases ht
    · intro hx
      refine ⟨?_, rfl⟩
      intro tx htx
      rcases List.mem_map.1 htx with ⟨t, -, rfl⟩
      rfl

/-- Witness for C1: on a concrete pair of committable transactions the combined
commit returns true and both participants end COMMITTED. -/
theorem c1_commit_combined_all_or_none_witness :
    (CombinedTransaction.commit sampleTxs sampleDB).1 = true
    ∧ ∀ tx ∈ (CombinedTransaction.commit sampleTxs sampleDB).2.1,
        tx.state = TxState.committed :=
  ⟨rfl, ((c1_commit_combined_all_or_none sampleTxs sampleDB).2.1 rfl).1⟩


theorem onFlushable_pos (st : FlushState) (tx : Nat) (cb pr : Option Nat)
    (h : st.transactions.all
      (fun t => (mapSet st.flushable tx cb).any (fun e => e.1 == t)) = true) :
    CombinedTransaction.onFlushable st tx cb pr
      = (true,
         { st with flushable := mapSet st.flushable tx cb,
                   preprocessing := collectPre st.preprocessing pr },
         (collectPre st.preprocessing pr).map FlushEvent.preprocess
           ++ FlushEvent.commitCombined
             :: (mapSet st.flushable tx cb).map (fun e => FlushEvent.callback e.2)) := by
  simp only [CombinedTransaction.onFlushable]
  rw [if_pos h]

theorem onFlushable_neg (st : FlushState) (tx : Nat) (cb pr : Option Nat)
    (h : ¬ st.transactions.all
      (fun t => (mapSet st.flushable tx cb).any (fun e => e.1 == t)) = true) :
    CombinedTransaction.onFlushable st tx cb pr
      = (false,
         { st with flushable := mapSet st.flushable tx cb,
                   preprocessing := collectPre st.preprocessing pr },
         []) := by
  simp only [CombinedTransaction.onFlushable]
  rw [if_neg h]

/-- C3: onFlushable triggers the combined flush exactly when every member
transaction has been reported flushable; before that it returns false and the
call performs no event at all; on the triggering call the trace contains the
single combined backend commit, strictly after every collected preprocessing
hook and strictly before every per-store callback, and every registered
callback is invoked. -/
theorem c3_onFlushable_gating_and_order (st : FlushState) (tx : Nat) (cb pr : Option Nat) :
    ((CombinedTransaction.onFlushable st tx cb pr).1
        = st.transactions.all (fun t => (mapSet st.flushable tx cb).any (fun e => e.1 == t)))
    ∧ ((CombinedTransaction.onFlushable st tx cb pr).1 = false →
        (CombinedTransaction.onFlushable st tx cb pr).2.2 = [])
    ∧ ((CombinedTransaction.onFlushable st tx cb pr).1 = true →
        ∃ k, (CombinedTransaction.onFlushable st tx cb pr).2.2[k]?
              = some FlushEvent.commitCombined
          ∧ (∀ (i f : Nat), (CombinedTransaction.onFlushable st tx cb pr).2.2[i]?
              = some (FlushEvent.preprocess f) → i < k)
          ∧ (∀ (i : Nat) (c : Option Nat), (CombinedTransaction.onFlushable st tx cb pr).2.2[i]?
              = some (FlushEvent.callback c) → k < i)
          ∧ (∀ e ∈ mapSet st.flushable tx cb,
              FlushEvent.callback e.2 ∈ (CombinedTransaction.onFlushable st tx cb pr).2.2)) := by
  by_cases h : st.transactions.all
      (fun t => (mapSet st.flushable tx cb).any (fun e => e.1 == t)) = true
  case pos =>
    rw [onFlushable_pos st tx cb pr h]
    refine ⟨by rw [h], ?_, ?_⟩
    · intro hf; cases hf
    · intro hx
      refine ⟨((collectPre st.preprocessing pr).map FlushEvent.preprocess).length,
        ?_, ?_, ?_, ?_⟩
      · rw [List.getElem?_append_right (Nat.le_refl _)]
        simp
      · intro i f hif
        by_contra hc
        push_neg at hc
        rw [List.getElem?_append_right hc] at hif
        rcases him : i - ((collectPre st.preprocessing pr).map FlushEvent.preprocess).length
          with - | m
        · rw [him] at hif
          simp only [List.getElem?_cons_zero] at hif
          cases Option.some_inj.1 hif
        · rw [him] at hif
          simp only [List.getElem?_cons_succ] at hif
          rcases List.mem_map.1 (getElemSome_mem _ _ _ hif) with ⟨e, -, heq⟩
          cases heq
      · intro i c hic
        by_contra hc
        push_neg at hc
        rcases Nat.lt_or_ge i
          (((collectPre st.preprocessing pr).map FlushEvent.preprocess).length) with hlt | hge
        · rw [List.getElem?_append_left hlt] at hic
          rcases List.mem_map.1 (getElemSome_mem _ _ _ hic) with ⟨e, -, heq⟩
          cases heq
        · have hieq : i
              = ((collectPre st.preprocessing pr).map FlushEvent.preprocess).length := by
            omega
          rw [hieq, List.getElem?_append_right (Nat.le_refl _)] at hic
          simp only [Nat.sub_self, List.getElem?_cons_zero] at hic
          cases Option.some_inj.1 hic
      · intro e he
        exact List.mem_append.2 (Or.inr (List.mem_cons_of_mem _ (List.mem_map_of_mem _ he)))
  case neg =>
    rw [onFlushable_neg st tx cb pr h]
    refine ⟨?_, fun hx => rfl, ?_⟩
    · rw [Bool.not_eq_true] at h
      rw [h]
    · intro ht; cases ht

/-- Witness for C3: with a single member transaction reporting flushable with a
callback and a preprocessing hook, the flush is triggered and correctly ordered. -/
theorem c3_onFlushable_gating_and_order_witness :
    (CombinedTransaction.onFlushable ⟨[5], [], []⟩ 5 (some 9) (some 7)).1 = true
    ∧ ∃ k, (CombinedTransaction.onFlushable ⟨[5], [], []⟩ 5 (some 9) (some 7)).2.2[k]?
          = some FlushEvent.commitCombined
      ∧ (∀ (i f : Nat), (CombinedTransaction.onFlushable ⟨[5], [], []⟩ 5 (some 9) (some 7)).2.2[i]?
          = some (FlushEvent.preprocess f) → i < k)
      ∧ (∀ (i : Nat) (c : Option Nat), (CombinedTransaction.onFlushable ⟨[5], [], []⟩ 5 (some 9) (some 7)).2.2[i]?
          = some (FlushEvent.callback c) → k < i)
      ∧ (∀ e ∈ mapSet ([] : List (Nat × Option Nat)) 5 (some 9),
          FlushEvent.callback e.2
            ∈ (CombinedTransaction.onFlushable ⟨[5], [], []⟩ 5 (some 9) (some 7)).2.2) :=
  ⟨rfl, (c3_onFlushable_gating_and_order ⟨[5], [], []⟩ 5 (some 9) (some 7)).2.2 rfl⟩

theorem tableGet_cons (a : JsValue) (b : List Nat) (t : IndexTable) (s : JsValue) :
    tableGet ((a, b) :: t) s = if a = s then some b else tableGet t s := by
  by_cases h : a = s
  · rw [if_pos h]
    simp [tableGet, List.find?_cons, h]
  · rw [if_neg h]
    simp only [tableGet, List.find?_cons]
    have hb : ((a, b).1 == s) = false := by simpa using h
    rw [hb]

theorem tableGet_remove_self (t : IndexTable) (s : JsValue) :
    tableGet (tableRemove t s) s = none := by
  induction t with
  | nil => rfl
  | cons e rest ih =>
    rcases e with ⟨a, b⟩
    by_cases h : a = s
    · have hb : ¬ (!(a == s)) = true := by simp [h]
      simp only [tableRemove, List.filter_cons]
      rw [if_neg hb]
      exact ih
    · have hb : (!((a, b).1 == s)) = true := by simpa using h
      simp only [tableRemove, List.filter_cons]
      rw [if_pos hb]
      rw [tableGet_cons, if_neg h]
      exact ih

theorem tableGet_remove_ne (t : IndexTable) (s s1 : JsValue) (h : ¬ s1 = s) :
    tableGet (tableRemove t s1) s = tableGet t s := by
  induction t with
  | nil => rfl
  | cons e rest ih =>
    rcases e with ⟨a, b⟩
    by_cases ha : a = s1
    · have hb : ¬ (!((a, b).1 == s1)) = true := by simp [ha]
      have hstep : tableRemove ((a, b) :: rest) s1 = tableRemove rest s1 := by
        simp only [tableRemove, List.filter_cons]
        rw [if_neg hb]
      rw [hstep, ih, tableGet_cons, if_neg (by rw [ha]; exact h)]
    · have hb : (!((a, b).1 == s1)) = true := by simpa using ha
      have hstep : tableRemove ((a, b) :: rest) s1 = (a, b) :: tableRemove rest s1 := by
        simp only [tableRemove, List.filter_cons]
        rw [if_pos hb]
      rw [hstep, tableGet_cons, tableGet_cons, ih]

/-- C5: when the index key path does not resolve on the new value the entry is
simply skipped: put never raises an error and the resulting index is exactly
the index obtained by removing only the old value association (the public
remove operation); when the key path resolves on neither the old nor the new
value, the index is left unchanged. -/
theorem c5_non_conforming_values_skipped (unique : Bool) (keyPath : List Nat) (key : Nat)
    (value oldValue : Option JsValue) (t : IndexTable)
    (h : PersistentIndex.indexKeyOf keyPath value = none) :
    PersistentIndex.put unique keyPath key value oldValue t
      = Except.ok (PersistentIndex.remove unique keyPath key oldValue t)
    ∧ (PersistentIndex.indexKeyOf keyPath oldValue = none →
        PersistentIndex.put unique keyPath key value oldValue t = Except.ok t) := by
  constructor
  · simp only [PersistentIndex.put, PersistentIndex.remove, h]
  · intro ho
    simp only [PersistentIndex.put, h, ho]

/-- Witness for C5, the S2 scenario: the secondary index on path a.b skips the
non-object value, leaving the table exactly as it was. -/
theorem c5_non_conforming_values_skipped_witness :
    PersistentIndex.indexKeyOf [0, 1] (some (JsValue.prim 5)) = none
    ∧ (PersistentIndex.put false [0, 1] 7 (some (JsValue.prim 5)) none
          [(JsValue.prim 1, [3])]
        = Except.ok (PersistentIndex.remove false [0, 1] 7 none [(JsValue.prim 1, [3])])
      ∧ (PersistentIndex.indexKeyOf [0, 1] none = none →
          PersistentIndex.put false [0, 1] 7 (some (JsValue.prim 5)) none
              [(JsValue.prim 1, [3])]
            = Except.ok [(JsValue.prim 1, [3])])) :=
  ⟨rfl, c5_non_conforming_values_skipped false [0, 1] 7 (some (JsValue.prim 5)) none
    [(JsValue.prim 1, [3])] rfl⟩

/-- C6: on a unique index used as documented (the hypotheses state that the
old value passed to put is the value currently associated with the primary
key, so the index entry at a secondary key of the old value is exactly this
primary key, and a unique-index record holds one primary key), put fails if
and only if the extracted secondary key already maps to a primary key
different from the one being inserted; in particular re-putting the same
primary key under the same secondary key succeeds.  The error value models the
synchronous throw of putSync and the rejection of the asynchronous put. -/
theorem c6_unique_violation_iff (keyPath : List Nat) (key : Nat)
    (value oldValue : Option JsValue) (t : IndexTable) (s : JsValue)
    (hNew : PersistentIndex.indexKeyOf keyPath value = some s)
    (hSing : match tableGet t s with
      | some ps => ps.length = 1
      | none => True)
    (hOldIn : match PersistentIndex.indexKeyOf keyPath oldValue with
      | some s1 => tableGet t s1 = some [key]
      | none => True)
    (hOldOnly : tableGet t s = some [key] →
        PersistentIndex.indexKeyOf keyPath oldValue = some s) :
    (∃ e : DbError, PersistentIndex.put true keyPath key value oldValue t = Except.error e)
      ↔ (∃ p : Nat, tableGet t s = some [p] ∧ p ≠ key) := by
  have hSing1 : ∀ ps : List Nat, tableGet t s = some ps → ∃ p : Nat, ps = [p] := by
    intro ps hps
    rw [hps] at hSing
    exact List.length_eq_one.1 hSing
  cases ho : PersistentIndex.indexKeyOf keyPath oldValue with
  | some s1 =>
    have hIn : tableGet t s1 = some [key] := by
      rw [ho] at hOldIn
      exact hOldIn
    have hrm : PersistentIndex.removeHelper true key s1 t = tableRemove t s1 := by
      rw [PersistentIndex.removeHelper, hIn]
      simp
    have hput : PersistentIndex.put true keyPath key value oldValue t
        = PersistentIndex.insertHelper true key s (tableRemove t s1) := by
      simp only [PersistentIndex.put, ho, hNew, hrm]
    by_cases hss : s1 = s
    case pos =>
      subst hss
      have hg1 : tableGet (tableRemove t s1) s1 = none := tableGet_remove_self t s1
      have hok : PersistentIndex.insertHelper true key s1 (tableRemove t s1)
          = Except.ok (tablePut (tableRemove t s1) s1 [key]) := by
        rw [PersistentIndex.insertHelper, hg1]
      constructor
      · rintro ⟨e, he⟩
        rw [hput, hok] at he
        cases he
      · rintro ⟨p, hp, hpk⟩
        rw [hIn] at hp
        have h1 : [key] = [p] := Option.some_inj.1 hp
        have h2 : key = p := by
          injection h1 with hx hy
        exact absurd h2.symm hpk
    case neg =>
      have hgeq : tableGet (tableRemove t s1) s = tableGet t s :=
        tableGet_remove_ne t s s1 hss
      cases hg : tableGet t s with
      | none =>
        have hok : PersistentIndex.insertHelper true key s (tableRemove t s1)
            = Except.ok (tablePut (tableRemove t s1) s [key]) := by
          rw [PersistentIndex.insertHelper, hgeq, hg]
        constructor
        · rintro ⟨e, he⟩
          rw [hput, hok] at he
          cases he
        · rintro ⟨p, hp, -⟩
          cases hp
      | some ps =>
        rcases hSing1 ps hg with ⟨p, rfl⟩
        have herr : PersistentIndex.insertHelper true key s (tableRemove t s1)
            = Except.error DbError.uniquenessViolation := by
          rw [PersistentIndex.insertHelper, hgeq, hg]
          rfl
        constructor
        · intro hx
          refine ⟨p, rfl, ?_⟩
          intro hpk
          rw [hpk] at hg
          rw [hOldOnly hg] at ho
          exact hss (Option.some_inj.1 ho).symm
        · intro hx
          exact ⟨DbError.uniquenessViolation, by rw [hput, herr]⟩
  | none =>
    have hput : PersistentIndex.put true keyPath key value oldValue t
        = PersistentIndex.insertHelper true key s t := by
      simp only [PersistentIndex.put, ho, hNew]
    cases hg : tableGet t s with
    | none =>
      have hok : PersistentIndex.insertHelper true key s t
          = Except.ok (tablePut t s [key]) := by
        rw [PersistentIndex.insertHelper, hg]
      constructor
      · rintro ⟨e, he⟩
        rw [hput, hok] at he
        cases he
      · rintro ⟨p, hp, -⟩
        cases hp
    | some ps =>
      rcases hSing1 ps hg with ⟨p, rfl⟩
      have herr : PersistentIndex.insertHelper true key s t
          = Except.error DbError.uniquenessViolation := by
        rw [PersistentIndex.insertHelper, hg]
        rfl
      constructor
      · intro hx
        refine ⟨p, rfl, ?_⟩
        intro hpk
        rw [hpk] at hg
        rw [hOldOnly hg] at ho
        cases ho
      · intro hx
        exact ⟨DbError.uniquenessViolation, by rw [hput, herr]⟩

/-- Witness for C6, the S3 scenario: with key path a.b unique and key t1
already indexed under secondary key 1, inserting t2 with the same secondary
key raises the uniqueness violation. -/
theorem c6_unique_violation_iff_witness :
    PersistentIndex.indexKeyOf [0, 1]
        (some (JsValue.obj (JsFields.fcons 0
          (JsValue.obj (JsFields.fcons 1 (JsValue.prim 1) JsFields.fnil)) JsFields.fnil)))
      = some (JsValue.prim 1)
    ∧ ((∃ e : DbError, PersistentIndex.put true [0, 1] 2
          (some (JsValue.obj (JsFields.fcons 0
            (JsValue.obj (JsFields.fcons 1 (JsValue.prim 1) JsFields.fnil)) JsFields.fnil)))
          none [(JsValue.prim 1, [1])] = Except.error e)
        ↔ (∃ p : Nat, tableGet [(JsValue.prim 1, [1])] (JsValue.prim 1) = some [p] ∧ p ≠ 2)) :=
  ⟨rfl, c6_unique_violation_iff [0, 1] 2
    (some (JsValue.obj (JsFields.fcons 0
      (JsValue.obj (JsFields.fcons 1 (JsValue.prim 1) JsFields.fnil)) JsFields.fnil)))
    none [(JsValue.prim 1, [1])] (JsValue.prim 1) rfl (by exact rfl) (by exact trivial)
    (fun hx => by cases hx)⟩


theorem takeWhile_eq_filter_of_pairwise {α : Type} (p : α → Bool) (l : List α)
    (h : l.Pairwise (fun a b => p a = false → p b = false)) :
    l.takeWhile p = l.filter p := by
  induction l with
  | nil => rfl
  | cons a t ih =>
    rcases List.pairwise_cons.1 h with ⟨hab, ht⟩
    cases hp : p a
    · have hnil : t.filter p = [] := List.filter_eq_nil_iff.2 (fun x hx => by
        rw [hab x hx hp]
        exact Bool.false_ne_true)
      simp [List.takeWhile_cons, List.filter_cons, hp, hnil]
    · simp [List.takeWhile_cons, List.filter_cons, hp, ih ht]

theorem cursorAsc_pairwise (entries : List IndexRecord) (q : Option KeyRangeN)
    (hsorted : entries.Pairwise recLt) : (cursorAsc entries q).Pairwise recLt :=
  List.Pairwise.sublist (List.filter_sublist entries) hsorted

theorem desc_group_eq (entries : List IndexRecord) (q : Option KeyRangeN)
    (hsorted : entries.Pairwise recLt) (e : IndexRecord)
    (hh : (cursorDesc entries q).head? = some e) :
    (cursorDesc entries q).takeWhile (fun x => x.sKey == e.sKey)
      = (maxEntriesSpec entries q).reverse := by
  have hf : (cursorAsc entries q).Pairwise recLt := cursorAsc_pairwise entries q hsorted
  have hfr : (cursorDesc entries q).Pairwise (flip recLt) := List.pairwise_reverse.2 hf
  have hmemD : e ∈ cursorDesc entries q := List.mem_of_mem_head? (by rw [hh]; exact rfl)
  have hub : ∀ x ∈ cursorDesc entries q, x.sKey ≤ e.sKey := by
    intro x hx
    rcases hD : cursorDesc entries q with - | ⟨e1, tl⟩
    · rw [hD] at hx; cases hx
    · rw [hD] at hh
      have he1 : e1 = e := by simpa using hh
      subst he1
      rw [hD] at hx
      rcases List.mem_cons.1 hx with rfl | hx1
      · exact le_refl _
      · have hp := (List.pairwise_cons.1 (hD ▸ hfr)).1 x hx1
        rcases hp with h1 | ⟨h1, -⟩
        · exact le_of_lt h1
        · exact le_of_eq h1
  have hpair : (cursorDesc entries q).Pairwise
      (fun a b => (a.sKey == e.sKey) = false → (b.sKey == e.sKey) = false) := by
    refine List.Pairwise.imp_of_mem ?_ hfr
    intro a b ha hb hab hpa
    have ha1 : a.sKey ≤ e.sKey := hub a ha
    have ha2 : a.sKey ≠ e.sKey := by simpa using hpa
    have hb1 : b.sKey ≤ a.sKey := by
      rcases hab with h1 | ⟨h1, -⟩
      · exact le_of_lt h1
      · exact le_of_eq h1
    have hbn : b.sKey ≠ e.sKey := by omega
    simpa using hbn
  rw [takeWhile_eq_filter_of_pairwise _ _ hpair]
  rw [show cursorDesc entries q = (cursorAsc entries q).reverse from rfl]
  rw [List.filter_reverse]
  refine congrArg List.reverse ?_
  rw [maxEntriesSpec]
  refine List.filter_congr ?_
  intro x hx
  apply Bool.eq_iff_iff.2
  constructor
  · intro hxe
    have hxe1 : x.sKey = e.sKey := by simpa using hxe
    rw [List.all_eq_true]
    intro y hy
    have hy1 : y.sKey ≤ e.sKey := hub y (List.mem_reverse.2 hy)
    simp only [decide_eq_true_eq]
    omega
  · intro hall
    rw [List.all_eq_true] at hall
    have h1 : e.sKey ≤ x.sKey := by
      have h2 := hall e (List.mem_reverse.1 hmemD)
      simpa using h2
    have h2 : x.sKey ≤ e.sKey := hub x (List.mem_reverse.2 hx)
    have h3 : x.sKey = e.sKey := by omega
    simpa using h3

theorem asc_group_eq (entries : List IndexRecord) (q : Option KeyRangeN)
    (hsorted : entries.Pairwise recLt) (e : IndexRecord)
    (hh : (cursorAsc entries q).head? = some e) :
    (cursorAsc entries q).takeWhile (fun x => x.sKey == e.sKey)
      = minEntriesSpec entries q := by
  have hf : (cursorAsc entries q).Pairwise recLt := cursorAsc_pairwise entries q hsorted
  have hmemF : e ∈ cursorAsc entries q := List.mem_of_mem_head? (by rw [hh]; exact rfl)
  have hlb : ∀ x ∈ cursorAsc entries q, e.sKey ≤ x.sKey := by
    intro x hx
    rcases hD : cursorAsc entries q with - | ⟨e1, tl⟩
    · rw [hD] at hx; cases hx
    · rw [hD] at hh
      have he1 : e1 = e := by simpa using hh
      subst he1
      rw [hD] at hx
      rcases List.mem_cons.1 hx with rfl | hx1
      · exact le_refl _
      · have hp := (List.pairwise_cons.1 (hD ▸ hf)).1 x hx1
        rcases hp with h1 | ⟨h1, -⟩
        · exact le_of_lt h1
        · exact le_of_eq h1
  have hpair : (cursorAsc entries q).Pairwise
      (fun a b => (a.sKey == e.sKey) = false → (b.sKey == e.sKey) = false) := by
    refine List.Pairwise.imp_of_mem ?_ hf
    intro a b ha hb hab hpa
    have ha1 : e.sKey ≤ a.sKey := hlb a ha
    have ha2 : a.sKey ≠ e.sKey := by simpa using hpa
    have hb1 : a.sKey ≤ b.sKey := by
      rcases hab with h1 | ⟨h1, -⟩
      · exact le_of_lt h1
      · exact le_of_eq h1
    have hbn : b.sKey ≠ e.sKey := by omega
    simpa using hbn
  rw [takeWhile_eq_filter_of_pairwise _ _ hpair]
  rw [minEntriesSpec]
  refine List.filter_congr ?_
  intro x hx
  apply Bool.eq_iff_iff.2
  constructor
  · intro hxe
    have hxe1 : x.sKey = e.sKey := by simpa using hxe
    rw [List.all_eq_true]
    intro y hy
    have hy1 : e.sKey ≤ y.sKey := hlb y hy
    simp only [decide_eq_true_eq]
    omega
  · intro hall
    rw [List.all_eq_true] at hall
    have h1 : x.sKey ≤ e.sKey := by
      have h2 := hall e hmemF
      simpa using h2
    have h2 : e.sKey ≤ x.sKey := hlb x hx
    have h3 : x.sKey = e.sKey := by omega
    simpa using h3

/-- C7 as corrected: in the IndexedDB-wrapper index of the lmdb source file,
maxValues returns all stored values whose secondary key is the greatest inside
the range (in descending primary-key order, the direction of the prev cursor),
maxKeys the corresponding primary keys; minValues and minKeys return all
values and primary keys of the least secondary key, in ascending primary-key
order. -/
theorem c7_minmax_all_values_idb_wrapper (entries : List IndexRecord)
    (q : Option KeyRangeN) (hsorted : entries.Pairwise recLt) :
    IDBPersistentIndex.maxValues entries q
      = ((maxEntriesSpec entries q).map (fun e => e.val)).reverse
    ∧ IDBPersistentIndex.maxKeys entries q
      = ((maxEntriesSpec entries q).map (fun e => e.pKey)).reverse
    ∧ IDBPersistentIndex.minValues entries q
      = (minEntriesSpec entries q).map (fun e => e.val)
    ∧ IDBPersistentIndex.minKeys entries q
      = (minEntriesSpec entries q).map (fun e => e.pKey) := by
  refine ⟨?_, ?_, ?_, ?_⟩
  · rw [IDBPersistentIndex.maxValues]
    cases hh : (cursorDesc entries q).head? with
    | none =>
      have h1 : cursorAsc entries q = [] :=
        List.reverse_eq_nil_iff.1 (List.head?_eq_none_iff.1 hh)
      rw [maxEntriesSpec, h1]
      rfl
    | some e =>
      show ((cursorDesc entries q).takeWhile (fun x => x.sKey == e.sKey)).map
          (fun x => x.val) = _
      rw [desc_group_eq entries q hsorted e hh, List.map_reverse]
  · rw [IDBPersistentIndex.maxKeys]
    cases hh : (cursorDesc entries q).head? with
    | none =>
      have h1 : cursorAsc entries q = [] :=
        List.reverse_eq_nil_iff.1 (List.head?_eq_none_iff.1 hh)
      rw [maxEntriesSpec, h1]
      rfl
    | some e =>
      show ((cursorDesc entries q).takeWhile (fun x => x.sKey == e.sKey)).map
          (fun x => x.pKey) = _
      rw [desc_group_eq entries q hsorted e hh, List.map_reverse]
  · rw [IDBPersistentIndex.minValues]
    cases hh : (cursorAsc entries q).head? with
    | none =>
      have h1 : cursorAsc entries q = [] := List.head?_eq_none_iff.1 hh
      rw [minEntriesSpec, h1]
      rfl
    | some e =>
      show ((cursorAsc entries q).takeWhile (fun x => x.sKey == e.sKey)).map
          (fun x => x.val) = _
      rw [asc_group_eq entries q hsorted e hh]
  · rw [IDBPersistentIndex.minKeys]
    cases hh : (cursorAsc entries q).head? with
    | none =>
      have h1 : cursorAsc entries q = [] := List.head?_eq_none_iff.1 hh
      rw [minEntriesSpec, h1]
      rfl
    | some e =>
      show ((cursorAsc entries q).takeWhile (fun x => x.sKey == e.sKey)).map
          (fun x => x.pKey) = _
      rw [asc_group_eq entries q hsorted e hh]

/-- C7 counterexample: in the browser-platform PersistentIndex, on an index
holding two records that share the greatest secondary key, maxValues resolves
with the first prev-cursor record only, so one of the stored values sharing
the maximal secondary key is missing from the result, and maxKeys misses the
corresponding primary key; the claim is false for this implementation. -/
theorem c7_counterexample_browser_single_record :
    (maxEntriesSpec twoMaxEntries none).map (fun e => e.val) = [10, 20]
    ∧ BrowserPersistentIndex.maxValues twoMaxEntries none = [20]
    ∧ ¬ (10 : Nat) ∈ BrowserPersistentIndex.maxValues twoMaxEntries none
    ∧ (maxEntriesSpec twoMaxEntries none).map (fun e => e.pKey) = [1, 2]
    ∧ BrowserPersistentIndex.maxKeys twoMaxEntries none = [2]
    ∧ ¬ (1 : Nat) ∈ BrowserPersistentIndex.maxKeys twoMaxEntries none := by
  decide

/-- Witness for the corrected C7 at a concrete sorted two-record index. -/
theorem c7_minmax_all_values_idb_wrapper_witness :
    twoMaxEntries.Pairwise recLt
    ∧ IDBPersistentIndex.maxValues twoMaxEntries none
        = ((maxEntriesSpec twoMaxEntries none).map (fun e => e.val)).reverse :=
  ⟨by decide, (c7_minmax_all_values_idb_wrapper twoMaxEntries none (by decide)).1⟩


/-- C8: evaluation of the _initDB deletion logic.  On a version bump, a drop
registered with a null or true condition, or with a callback returning true,
is applied, and a callback returning false suppresses it; without a version
bump no registered drop runs.  But a drop registered with the boolean literal
false is not suppressed without error, as the claim and the specification
state: the check calls the condition as a function, and calling false raises a
TypeError — the code contradicts its own declared option type (a nullable
boolean or callback). -/
theorem c8_false_condition_raises_type_error :
    JungleDB.initDBDeletes 1 2 [(0, UpgradeCond.bool false)]
      = Except.error DbError.typeErrorNotAFunction
    ∧ JungleDB.initDBDeletes 1 2 [(0, UpgradeCond.null)] = Except.ok [0]
    ∧ JungleDB.initDBDeletes 1 2 [(0, UpgradeCond.bool true)] = Except.ok [0]
    ∧ JungleDB.initDBDeletes 1 2 [(0, UpgradeCond.fn (fun o n => decide (o < n)))]
      = Except.ok [0]
    ∧ JungleDB.initDBDeletes 1 2 [(0, UpgradeCond.fn (fun _ _ => false))]
      = Except.ok []
    ∧ JungleDB.initDBDeletes 2 2 [(0, UpgradeCond.null)] = Except.ok []
    ∧ JungleDB.initDBDeletes 3 2 [(0, UpgradeCond.bool false)] = Except.ok [] :=
  ⟨rfl, rfl, rfl, rfl, rfl, rfl, rfl⟩

/-- C9: while connected, createObjectStore and deleteObjectStore throw, and
the failed call leaves the whole instance state — registered stores, backends
and pending deletions — unchanged. -/
theorem c9_structural_ops_fail_while_connected (db : JDB) (tableName : Nat)
    (opts : StoreOptions) (cond : UpgradeCond) (h : db.connected = true) :
    (JungleDB.createObjectStore db tableName opts).1
        = Except.error DbError.cannotCreateWhileConnected
    ∧ (JungleDB.createObjectStore db tableName opts).2 = db
    ∧ (JungleDB.deleteObjectStore db tableName cond).1
        = Except.error DbError.cannotDeleteWhileConnected
    ∧ (JungleDB.deleteObjectStore db tableName cond).2 = db := by
  have h1 : JungleDB.createObjectStore db tableName opts
      = (Except.error DbError.cannotCreateWhileConnected, db) := by
    rw [JungleDB.createObjectStore, if_pos h]
  have h2 : JungleDB.deleteObjectStore db tableName cond
      = (Except.error DbError.cannotDeleteWhileConnected, db) := by
    rw [JungleDB.deleteObjectStore, if_pos h]
  rw [h1, h2]
  exact ⟨rfl, rfl, rfl, rfl⟩

/-- Witness for C9 on a concrete connected instance. -/
theorem c9_structural_ops_fail_while_connected_witness :
    connectedDB.connected = true
    ∧ ((JungleDB.createObjectStore connectedDB 0 ⟨true, UpgradeCond.null⟩).1
        = Except.error DbError.cannotCreateWhileConnected
      ∧ (JungleDB.createObjectStore connectedDB 0 ⟨true, UpgradeCond.null⟩).2 = connectedDB
      ∧ (JungleDB.deleteObjectStore connectedDB 0 UpgradeCond.null).1
        = Except.error DbError.cannotDeleteWhileConnected
      ∧ (JungleDB.deleteObjectStore connectedDB 0 UpgradeCond.null).2 = connectedDB) :=
  ⟨rfl, c9_structural_ops_fail_while_connected connectedDB 0 ⟨true, UpgradeCond.null⟩
    UpgradeCond.null rfl⟩

/-- C10: on a disconnected instance, calling createObjectStore twice with the
same table name is idempotent: the second call returns exactly the ObjectStore
delivered by the first call and leaves the instance — in particular the list
of registered backends — unchanged, regardless of the options passed to the
second call. -/
theorem c10_create_object_store_idempotent (db : JDB) (tableName : Nat)
    (opts : StoreOptions) (h : db.connected = false) :
    ∃ os : Nat,
      (JungleDB.createObjectStore db tableName opts).1 = Except.ok os
      ∧ ∀ opts2 : StoreOptions,
          JungleDB.createObjectStore
              (JungleDB.createObjectStore db tableName opts).2 tableName opts2
            = (Except.ok os, (JungleDB.createObjectStore db tableName opts).2) := by
  have hnc : ¬ db.connected = true := by
    rw [h]
    exact Bool.false_ne_true
  cases hf : db.objectStores.find? (fun e => e.1 == tableName) with
  | some e =>
    have h1 : JungleDB.createObjectStore db tableName opts = (Except.ok e.2, db) := by
      rw [JungleDB.createObjectStore, if_neg hnc, hf]
    refine ⟨e.2, by rw [h1], ?_⟩
    intro opts2
    rw [h1]
    rw [JungleDB.createObjectStore, if_neg hnc, hf]
  | none =>
    have h1 : JungleDB.createObjectStore db tableName opts
        = (Except.ok db.fresh,
           { db with
              fresh := db.fresh + 1,
              objectStores := db.objectStores ++ [(tableName, db.fresh)],
              objectStoreBackends := db.objectStoreBackends ++ [(db.fresh, opts)] }) := by
      rw [JungleDB.createObjectStore, if_neg hnc, hf]
    refine ⟨db.fresh, by rw [h1], ?_⟩
    intro opts2
    rw [h1]
    have hfind2 : (db.objectStores ++ [(tableName, db.fresh)]).find?
        (fun e => e.1 == tableName) = some (tableName, db.fresh) := by
      rw [List.find?_append, hf]
      simp
    rw [JungleDB.createObjectStore, if_neg hnc]
    rw [hfind2]

/-- Witness for C10 on a concrete disconnected instance. -/
theorem c10_create_object_store_idempotent_witness :
    freshDB.connected = false
    ∧ ∃ os : Nat,
        (JungleDB.createObjectStore freshDB 4 ⟨true, UpgradeCond.null⟩).1 = Except.ok os
        ∧ ∀ opts2 : StoreOptions,
            JungleDB.createObjectStore
                (JungleDB.createObjectStore freshDB 4 ⟨true, UpgradeCond.null⟩).2 4 opts2
              = (Except.ok os,
                 (JungleDB.createObjectStore freshDB 4 ⟨true, UpgradeCond.null⟩).2) :=
  ⟨rfl, c10_create_object_store_idempotent freshDB 4 ⟨true, UpgradeCond.null⟩ rfl⟩
